import Mathlib

/-!
A shallow embedding of the tree-editor widget (src/index.ts) and proofs
about its operations.

The program maps a recursive data value (`TreeData`) to a live DOM subtree
and keeps the two in sync.  We embed the DOM state that the program reads
and writes: for each node element, the class lists of the element itself,
of its `.children` container and of its two bullet spans, the text input's
value, and the presence of the four handler slots the code assigns
(`el.onkeydown` and `onclick` on each of the three children of the
`.content` span: the collapsed bullet, the expanded bullet and the input).
Handlers are embedded as booleans (assigned / null).  The child elements
of the `.children` container are the `children` field of the node; the
`TreeNode` view objects of the program recompute their `children` list
from these elements after every mutation, so a view is a function of the
element state and the operations become state transformers on `NodeEl`.
-/

namespace TreeEditor

/-- `TreeData = string | [content, children]` from the source. -/
inductive TreeData where
  | str (s : String)
  | branch (content : String) (children : List TreeData)

mutual

/-- Structural equality test on `TreeData`. -/
def TreeData.beq : TreeData → TreeData → Bool
  | .str s, .str t => s == t
  | .branch c kids, .branch d kids2 => c == d && TreeData.beqList kids kids2
  | _, _ => false

def TreeData.beqList : List TreeData → List TreeData → Bool
  | [], [] => true
  | x :: xs, y :: ys => TreeData.beq x y && TreeData.beqList xs ys
  | _, _ => false

end

mutual

/-- No branch anywhere in the value has an empty children list.  This is
the shape `treeNodeToTreeData` produces: a childless node serializes to
its bare label. -/
def TreeData.noEmptyBranch : TreeData → Bool
  | .str _ => true
  | .branch _ kids => !kids.isEmpty && TreeData.noEmptyBranchList kids

def TreeData.noEmptyBranchList : List TreeData → Bool
  | [] => true
  | x :: xs => TreeData.noEmptyBranch x && TreeData.noEmptyBranchList xs

end

/-- The per-element state the program reads and writes on one node
element: class lists, the input value, and the handler slots. -/
structure NodeAttrs where
  /-- classes of the node element itself -/
  elClasses : List String
  /-- classes of the `.children` container div -/
  childrenClasses : List String
  /-- classes of the `span.collapsed.bullet` -/
  collapsedBulletClasses : List String
  /-- classes of the `span.expanded.bullet` -/
  expandedBulletClasses : List String
  /-- the text input's `value` -/
  inputValue : String
  /-- `el.onkeydown` is assigned -/
  onKeydown : Bool
  /-- `onclick` of the collapsed bullet (content child 0) is assigned -/
  collapsedBulletClick : Bool
  /-- `onclick` of the expanded bullet (content child 1) is assigned -/
  expandedBulletClick : Bool
  /-- `onclick` of the text input (content child 2) is assigned -/
  inputClick : Bool
deriving DecidableEq

/-- A node element together with the child node elements of its
`.children` container, in DOM order. -/
inductive NodeEl where
  | mk (attrs : NodeAttrs) (children : List NodeEl)

def NodeEl.attrs : NodeEl → NodeAttrs
  | .mk a _ => a

def NodeEl.children : NodeEl → List NodeEl
  | .mk _ c => c

mutual

def NodeEl.beq : NodeEl → NodeEl → Bool
  | .mk a kids, .mk b kids2 => a == b && NodeEl.beqList kids kids2

def NodeEl.beqList : List NodeEl → List NodeEl → Bool
  | [], [] => true
  | x :: xs, y :: ys => NodeEl.beq x y && NodeEl.beqList xs ys
  | _, _ => false

end

/-- `classList.add`: appends the token unless present. -/
def classAdd (l : List String) (s : String) : List String :=
  if s ∈ l then l else l ++ [s]

/-- `classList.remove`: drops the token. -/
def classRemove (l : List String) (s : String) : List String :=
  l.filter (fun t => t ≠ s)

/-- The element state of the markup `genTreeNodeHtml` emits for one node
with the given content: `div.tree_node.expanded` holding
`span.content > (span.collapsed.bullet, span.expanded.bullet, input)` and
`div.children.expanded`; no handlers are assigned by markup. -/
def genNodeAttrs (content : String) : NodeAttrs where
  elClasses := ["tree_node", "expanded"]
  childrenClasses := ["children", "expanded"]
  collapsedBulletClasses := ["collapsed", "bullet"]
  expandedBulletClasses := ["expanded", "bullet"]
  inputValue := content
  onKeydown := false
  collapsedBulletClick := false
  expandedBulletClick := false
  inputClick := false

mutual

/-- `compile (treeDataToHtml params data)`: the element tree the compiled
markup parses to.  A string gives a node with no children; a branch gives
a node whose container holds the children's elements in array order. -/
def treeDataToNode : TreeData → NodeEl
  | .str s => .mk (genNodeAttrs s) []
  | .branch c kids => .mk (genNodeAttrs c) (treeDataToNodeList kids)

def treeDataToNodeList : List TreeData → List NodeEl
  | [] => []
  | d :: ds => treeDataToNode d :: treeDataToNodeList ds

end

/-- The leaf branch of `setChildren`: with no children, add class `leaf`
to the expanded bullet, otherwise remove it.  (`el.querySelector
(".expanded.bullet")` finds the node's own expanded bullet: the content
span is the element's first child, before any descendant node.) -/
def setLeafClass (a : NodeAttrs) (isLeaf : Bool) : NodeAttrs :=
  if isLeaf then
    { a with expandedBulletClasses := classAdd a.expandedBulletClasses "leaf" }
  else
    { a with expandedBulletClasses := classRemove a.expandedBulletClasses "leaf" }

mutual

/-- The element-state effect of `createTreeNode` (whose `setChildren`
runs on construction): each child element is wrapped recursively, then
the node's own leaf class is set from its child count. -/
def createTreeNode : NodeEl → NodeEl
  | .mk a kids => .mk (setLeafClass a (createTreeNodeList kids).isEmpty) (createTreeNodeList kids)

def createTreeNodeList : List NodeEl → List NodeEl
  | [] => []
  | x :: xs => createTreeNode x :: createTreeNodeList xs

end

mutual

/-- `addListeners root`: on a node with children, assign `onkeydown` and
the two bullets' `onclick` (content children 0 and 1, `slice(0,2)`); on a
childless node clear them; recurse into every child. -/
def addListeners : NodeEl → NodeEl
  | .mk a kids =>
      .mk { a with
              onKeydown := !kids.isEmpty,
              collapsedBulletClick := !kids.isEmpty,
              expandedBulletClick := !kids.isEmpty }
        (addListenersList kids)

def addListenersList : List NodeEl → List NodeEl
  | [] => []
  | x :: xs => addListeners x :: addListenersList xs

end

mutual

/-- `removeListeners root`: clears `el.onkeydown`, and `onclick` of the
content children from index 2 on — `[...content.children].slice(2)`,
which is the text input, not the bullets — then recurses into every
child. -/
def removeListeners : NodeEl → NodeEl
  | .mk a kids =>
      .mk { a with onKeydown := false, inputClick := false }
        (removeListenersList kids)

def removeListenersList : List NodeEl → List NodeEl
  | [] => []
  | x :: xs => removeListeners x :: removeListenersList xs

end

mutual

/-- `treeNodeToTreeData`: a node with children serializes to
`[content, children]`, a childless node to its bare content. -/
def treeNodeToTreeData : NodeEl → TreeData
  | .mk a [] => .str a.inputValue
  | .mk a (k :: ks) => .branch a.inputValue (treeNodeToTreeDataList (k :: ks))

def treeNodeToTreeDataList : List NodeEl → List TreeData
  | [] => []
  | x :: xs => treeNodeToTreeData x :: treeNodeToTreeDataList xs

end

/-- `content` getter of the view: the input's value. -/
def NodeEl.content (n : NodeEl) : String :=
  n.attrs.inputValue

/-- `collapsed` getter: `childrenElement.classList.contains "collapsed"`. -/
def NodeEl.collapsed (n : NodeEl) : Bool :=
  n.attrs.childrenClasses.contains "collapsed"

/-- `collapsed` setter: on `true` add class `collapsed` then remove
`expanded` on both the container and the element; on `false` remove
`collapsed` then add `expanded` on both. -/
def NodeEl.setCollapsed (n : NodeEl) (c : Bool) : NodeEl :=
  match n with
  | .mk a kids =>
      if c then
        .mk { a with
                childrenClasses := classRemove (classAdd a.childrenClasses "collapsed") "expanded",
                elClasses := classRemove (classAdd a.elClasses "collapsed") "expanded" }
          kids
      else
        .mk { a with
                childrenClasses := classAdd (classRemove a.childrenClasses "collapsed") "expanded",
                elClasses := classAdd (classRemove a.elClasses "collapsed") "expanded" }
          kids

/-- One click on a bullet: `root.collapsed = !root.collapsed`. -/
def NodeEl.toggleCollapsed (n : NodeEl) : NodeEl :=
  n.setCollapsed (!n.collapsed)

/-- A freshly added child as it ends up in the live tree: compiled from
its data, wrapped (leaf classes set), and wired by the `addListeners`
pass that `add` runs on the parent. -/
def newChildView (d : TreeData) : NodeEl :=
  addListeners (createTreeNode (treeDataToNode d))

/-- `add(childData, index = -1)`: compile the child; if
`index > -1 && index < childElementCount` insert its element before the
child at `index`, else append it; then `setChildren()` and
`addListeners(this)`. -/
def NodeEl.add (n : NodeEl) (childData : TreeData) (index : Int := -1) : NodeEl :=
  match n with
  | .mk a kids =>
      let childElement := treeDataToNode childData
      let newKids :=
        if -1 < index ∧ index < (kids.length : Int) then
          kids.insertIdx index.toNat childElement
        else
          kids ++ [childElement]
      addListeners (createTreeNode (.mk a newKids))

/-- `remove(index)`: if `index < 0 || index >= childElementCount` return
without changing anything; else remove the child element at `index`
(running `removeListeners` on the detached child), then `setChildren()`
and `addListeners(this)`. -/
def NodeEl.remove (n : NodeEl) (index : Int) : NodeEl :=
  match n with
  | .mk a kids =>
      if index < 0 ∨ (kids.length : Int) ≤ index then .mk a kids
      else addListeners (createTreeNode (.mk a (kids.eraseIdx index.toNat)))

/-- The root view the `tree` constructor builds: the compiled markup of
the data, wrapped by `createTreeNode`. -/
def buildView (d : TreeData) : NodeEl :=
  createTreeNode (treeDataToNode d)

/-- The shape every class list managed by the `collapsed` setter has in
a live tree: the state token (`expanded` or `collapsed`) sits at the
end — markup emits `class="tree_node expanded"` and
`class="children expanded"`, and the setter appends the new token last —
and neither state token occurs elsewhere in the list. -/
def StateShape (tok other : String) (l : List String) : Prop :=
  ∃ l0, l = l0 ++ [tok] ∧ tok ∉ l0 ∧ other ∉ l0

/-- The leaf CSS marker of `setChildren`: class `leaf` on the node's
expanded bullet. -/
def leafMarked (n : NodeEl) : Bool :=
  n.attrs.expandedBulletClasses.contains "leaf"

/-- The id standing for the tree's container element `el` among the host
element's children. -/
def treeContainerId : Nat := 0

/-- The state `tree`'s closure holds (`mounted`, `root`) together with
the child list of the host element `mount` was or will be given. -/
structure MountState where
  mounted : Bool
  root : NodeEl
  hostChildren : List Nat

/-- `mount(parent)`: if not mounted, set `mounted`, append `el` under
the host and run `addListeners(root)`; else do nothing. -/
def mountTree (s : MountState) : MountState :=
  if s.mounted then s
  else
    { mounted := true
      root := addListeners s.root
      hostChildren := s.hostChildren ++ [treeContainerId] }

/-- `unmount()`: if mounted, clear `mounted`, remove `el` from the host
and run `removeListeners(root)`; else do nothing. -/
def unmountTree (s : MountState) : MountState :=
  if s.mounted then
    { mounted := false
      root := removeListeners s.root
      hostChildren := s.hostChildren.erase treeContainerId }
  else s

/-- For `appendAll` the view children list and the container's element
children can disagree, so elements get an identity: a view node is its
element's id, the ids currently in its `.children` container (DOM order),
and its view children (the `children` list of the `TreeNode` object). -/
inductive VNode where
  | mk (elemId : Nat) (domKids : List Nat) (viewKids : List VNode)

def VNode.elemId : VNode → Nat
  | .mk i _ _ => i

def VNode.domKids : VNode → List Nat
  | .mk _ dom _ => dom

def VNode.viewKids : VNode → List VNode
  | .mk _ _ kids => kids

def vnodeIds : List VNode → List Nat
  | [] => []
  | v :: vs => v.elemId :: vnodeIds vs

/-- `for (const childElement of parent.children) childElement.remove()`
over a live `HTMLCollection`: removing the element at the iteration
index shifts the rest down, so the loop removes the elements at even
positions of the shrinking collection and keeps every other one. -/
def liveRemoveAll : List Nat → List Nat
  | [] => []
  | [_] => []
  | _ :: b :: rest => b :: liveRemoveAll rest

/-- `parent.append(child._el)`: appends the element, first removing it
from the container if it is already there (DOM append moves). -/
def domAppendEl (dom : List Nat) (e : Nat) : List Nat :=
  dom.filter (fun x => x ≠ e) ++ [e]

mutual

/-- `appendAll node`: return if the view has no children; else when the
container holds fewer element children than the view list, run the
removal loop (`liveRemoveAll`) and then append each view child's element
in view order; in every case recurse into each view child. -/
def appendAll : VNode → VNode
  | .mk i dom kids =>
      if kids.isEmpty then .mk i dom kids
      else
        let dom2 :=
          if dom.length < kids.length then
            (vnodeIds kids).foldl domAppendEl (liveRemoveAll dom)
          else dom
        .mk i dom2 (appendAllList kids)

def appendAllList : List VNode → List VNode
  | [] => []
  | v :: vs => appendAll v :: appendAllList vs

end

mutual

/-- The claim's reading of `appendAll`, stated from the spec's words:
when the container holds fewer element children than the view's list it
"removes all existing element children and re-appends the elements of
every view child in view-list order", so the container ends up holding
exactly the view children's elements; otherwise the container is left
unchanged; and it recurses into every child. -/
def appendAllSpec : VNode → VNode
  | .mk i dom kids =>
      let dom2 := if dom.length < kids.length then vnodeIds kids else dom
      .mk i dom2 (appendAllSpecList kids)

def appendAllSpecList : List VNode → List VNode
  | [] => []
  | v :: vs => appendAllSpec v :: appendAllSpecList vs

end

/-! ### Basic infrastructure: induction principles and decidable equality -/

theorem tdataInductionOn (P : TreeData → Prop)
    (hstr : ∀ s, P (.str s))
    (hbr : ∀ c kids, (∀ k ∈ kids, P k) → P (.branch c kids)) : ∀ d, P d := by
  intro d
  induction d using TreeData.rec (motive_2 := fun l => ∀ k ∈ l, P k) with
  | str s => exact hstr s
  | branch c kids ih => exact hbr c kids ih
  | nil => rename_i k hk; cases hk
  | cons x xs hx hxs =>
      rename_i k hk
      cases hk with
      | head => exact hx
      | tail _ h2 => exact hxs k h2

theorem nodeElInductionOn (P : NodeEl → Prop)
    (h : ∀ a kids, (∀ k ∈ kids, P k) → P (.mk a kids)) : ∀ n, P n := by
  intro n
  induction n using NodeEl.rec (motive_2 := fun l => ∀ k ∈ l, P k) with
  | mk a kids ih => exact h a kids ih
  | nil => rename_i k hk; cases hk
  | cons x xs hx hxs =>
      rename_i k hk
      cases hk with
      | head => exact hx
      | tail _ h2 => exact hxs k h2

theorem vnodeInductionOn (P : VNode → Prop)
    (h : ∀ i dom kids, (∀ k ∈ kids, P k) → P (.mk i dom kids)) : ∀ v, P v := by
  intro v
  induction v using VNode.rec (motive_2 := fun l => ∀ k ∈ l, P k) with
  | mk i dom kids ih => exact h i dom kids ih
  | nil => rename_i k hk; cases hk
  | cons x xs hx hxs =>
      rename_i k hk
      cases hk with
      | head => exact hx
      | tail _ h2 => exact hxs k h2

theorem tdataBeqListIff (l1 : List TreeData)
    (h : ∀ x ∈ l1, ∀ b, TreeData.beq x b = true ↔ x = b) :
    ∀ l2, TreeData.beqList l1 l2 = true ↔ l1 = l2 := by
  induction l1 with
  | nil => intro l2; cases l2 <;> simp [TreeData.beqList]
  | cons x xs ihx =>
      intro l2
      cases l2 with
      | nil => simp [TreeData.beqList]
      | cons y ys =>
          simp only [TreeData.beqList, Bool.and_eq_true, List.cons.injEq]
          rw [h x (by simp) y, ihx (fun k hk b => h k (by simp [hk]) b) ys]

theorem tdataBeqIff : ∀ a b : TreeData, TreeData.beq a b = true ↔ a = b := by
  intro a
  induction a using tdataInductionOn with
  | hstr s =>
      intro b
      cases b with
      | str t => simp [TreeData.beq]
      | branch c kids => simp [TreeData.beq]
  | hbr c kids ih =>
      intro b
      cases b with
      | str t => simp [TreeData.beq]
      | branch d kids2 =>
          simp only [TreeData.beq, Bool.and_eq_true, beq_iff_eq, TreeData.branch.injEq]
          rw [tdataBeqListIff kids ih kids2]

instance : DecidableEq TreeData := fun a b =>
  decidable_of_iff _ (tdataBeqIff a b)

theorem nodeElBeqListIff (l1 : List NodeEl)
    (h : ∀ x ∈ l1, ∀ b, NodeEl.beq x b = true ↔ x = b) :
    ∀ l2, NodeEl.beqList l1 l2 = true ↔ l1 = l2 := by
  induction l1 with
  | nil => intro l2; cases l2 <;> simp [NodeEl.beqList]
  | cons x xs ihx =>
      intro l2
      cases l2 with
      | nil => simp [NodeEl.beqList]
      | cons y ys =>
          simp only [NodeEl.beqList, Bool.and_eq_true, List.cons.injEq]
          rw [h x (by simp) y, ihx (fun k hk b => h k (by simp [hk]) b) ys]

theorem nodeElBeqIff : ∀ a b : NodeEl, NodeEl.beq a b = true ↔ a = b := by
  intro a
  induction a using nodeElInductionOn with
  | h a kids ih =>
      intro b
      cases b with
      | mk b kids2 =>
          simp only [NodeEl.beq, Bool.and_eq_true, beq_iff_eq, NodeEl.mk.injEq]
          rw [nodeElBeqListIff kids ih kids2]

instance : DecidableEq NodeEl := fun a b =>
  decidable_of_iff _ (nodeElBeqIff a b)

/-! ### List forms of the mutual recursions, and small list lemmas -/

@[simp] theorem NodeEl.attrs_mk (a : NodeAttrs) (kids : List NodeEl) :
    (NodeEl.mk a kids).attrs = a := rfl

@[simp] theorem NodeEl.children_mk (a : NodeAttrs) (kids : List NodeEl) :
    (NodeEl.mk a kids).children = kids := rfl

theorem treeDataToNodeList_eq_map : ∀ l, treeDataToNodeList l = l.map treeDataToNode := by
  intro l
  induction l with
  | nil => simp [treeDataToNodeList]
  | cons x xs ih => simp [treeDataToNodeList, ih]

theorem createTreeNodeList_eq_map : ∀ l, createTreeNodeList l = l.map createTreeNode := by
  intro l
  induction l with
  | nil => simp [createTreeNodeList]
  | cons x xs ih => simp [createTreeNodeList, ih]

theorem addListenersList_eq_map : ∀ l, addListenersList l = l.map addListeners := by
  intro l
  induction l with
  | nil => simp [addListenersList]
  | cons x xs ih => simp [addListenersList, ih]

theorem removeListenersList_eq_map : ∀ l, removeListenersList l = l.map removeListeners := by
  intro l
  induction l with
  | nil => simp [removeListenersList]
  | cons x xs ih => simp [removeListenersList, ih]

theorem treeNodeToTreeDataList_eq_map :
    ∀ l, treeNodeToTreeDataList l = l.map treeNodeToTreeData := by
  intro l
  induction l with
  | nil => simp [treeNodeToTreeDataList]
  | cons x xs ih => simp [treeNodeToTreeDataList, ih]

theorem vnodeIds_eq_map : ∀ l, vnodeIds l = l.map VNode.elemId := by
  intro l
  induction l with
  | nil => simp [vnodeIds]
  | cons x xs ih => simp [vnodeIds, ih]

theorem appendAllList_eq_map : ∀ l, appendAllList l = l.map appendAll := by
  intro l
  induction l with
  | nil => simp [appendAllList]
  | cons x xs ih => simp [appendAllList, ih]

theorem treeNodeToTreeData_mk (a : NodeAttrs) (kids : List NodeEl) :
    treeNodeToTreeData (.mk a kids) =
      if kids.isEmpty then .str a.inputValue
      else .branch a.inputValue (kids.map treeNodeToTreeData) := by
  cases kids with
  | nil => simp [treeNodeToTreeData]
  | cons k ks => simp [treeNodeToTreeData, treeNodeToTreeDataList_eq_map]

theorem map_fix {α : Type} (f : α → α) :
    ∀ (l : List α), (∀ x ∈ l, f x = x) → l.map f = l := by
  intro l
  induction l with
  | nil => simp
  | cons x xs ih =>
      intro h
      simp only [List.map_cons, List.cons.injEq]
      exact ⟨h x (by simp), ih fun y hy => h y (by simp [hy])⟩

theorem map_insertIdx {α β : Type} (f : α → β) (x : α) :
    ∀ (k : Nat) (l : List α), (l.insertIdx k x).map f = (l.map f).insertIdx k (f x) := by
  intro k l
  induction l generalizing k with
  | nil => cases k <;> simp [List.insertIdx]
  | cons a l ih =>
      cases k with
      | zero => simp [List.insertIdx]
      | succ k => simp [List.insertIdx_succ_cons, ih]

theorem mem_of_mem_eraseIdx {α : Type} :
    ∀ (l : List α) (k : Nat) (x : α), x ∈ l.eraseIdx k → x ∈ l := by
  intro l
  induction l with
  | nil => intro k x h; simp [List.eraseIdx] at h
  | cons a l ih =>
      intro k x h
      cases k with
      | zero => simp only [List.eraseIdx] at h; exact List.mem_cons_of_mem a h
      | succ k =>
          simp only [List.eraseIdx] at h
          rcases List.mem_cons.mp h with h1 | h2
          · simp [h1]
          · exact List.mem_cons_of_mem a (ih k x h2)

/-! ### Class-list lemmas -/

theorem contains_iff_mem (l : List String) (s : String) : l.contains s = true ↔ s ∈ l := by
  simp

theorem classAdd_of_not_mem {l : List String} {s : String} (h : s ∉ l) :
    classAdd l s = l ++ [s] := by
  simp [classAdd, h]

theorem classAdd_of_mem {l : List String} {s : String} (h : s ∈ l) :
    classAdd l s = l := by
  simp [classAdd, h]

theorem classRemove_of_not_mem {l : List String} {s : String} (h : s ∉ l) :
    classRemove l s = l := by
  rw [classRemove]
  apply List.filter_eq_self.mpr
  intro a ha
  simp only [ne_eq, decide_eq_true_eq]
  intro hEq
  exact h (hEq ▸ ha)

theorem classRemove_append (l1 l2 : List String) (s : String) :
    classRemove (l1 ++ l2) s = classRemove l1 s ++ classRemove l2 s := by
  simp [classRemove, List.filter_append]

theorem mem_classAdd_self (l : List String) (s : String) : s ∈ classAdd l s := by
  by_cases h : s ∈ l
  · rw [classAdd_of_mem h]; exact h
  · rw [classAdd_of_not_mem h]; simp

theorem not_mem_classRemove_self (l : List String) (s : String) : s ∉ classRemove l s := by
  intro h
  rw [classRemove] at h
  have := List.of_mem_filter h
  simp at this

theorem classRemove_self_append_singleton (l : List String) (s : String) (h : s ∉ l) :
    classRemove (l ++ [s]) s = l := by
  rw [classRemove_append, classRemove_of_not_mem h]
  simp [classRemove]

/-! ### The serialization direction: `treeNodeToTreeData` -/

theorem setLeafClass_inputValue (a : NodeAttrs) (b : Bool) :
    (setLeafClass a b).inputValue = a.inputValue := by
  cases b <;> simp [setLeafClass]

theorem isEmpty_map {α β : Type} (f : α → β) (l : List α) :
    (l.map f).isEmpty = l.isEmpty := by
  cases l <;> rfl

theorem treeNodeToTreeData_createTreeNode :
    ∀ n, treeNodeToTreeData (createTreeNode n) = treeNodeToTreeData n := by
  intro n
  induction n using nodeElInductionOn with
  | h a kids ih =>
      rw [createTreeNode, createTreeNodeList_eq_map, treeNodeToTreeData_mk,
        treeNodeToTreeData_mk, isEmpty_map, setLeafClass_inputValue, List.map_map]
      by_cases hk : kids.isEmpty = true
      · simp [hk]
      · rw [if_neg hk, if_neg hk]
        congr 1
        exact List.map_congr_left fun x hx => ih x hx

theorem noEmptyBranchList_iff (l : List TreeData) :
    TreeData.noEmptyBranchList l = true ↔ ∀ x ∈ l, TreeData.noEmptyBranch x = true := by
  induction l with
  | nil => simp [TreeData.noEmptyBranchList]
  | cons x xs ih => simp [TreeData.noEmptyBranchList, ih]

theorem treeNodeToTreeData_treeDataToNode :
    ∀ d, TreeData.noEmptyBranch d = true → treeNodeToTreeData (treeDataToNode d) = d := by
  intro d
  induction d using tdataInductionOn with
  | hstr s => intro _; rfl
  | hbr c kids ih =>
      intro h
      rw [TreeData.noEmptyBranch, Bool.and_eq_true, Bool.not_eq_true', noEmptyBranchList_iff] at h
      obtain ⟨hne, hall⟩ := h
      rw [treeDataToNode, treeDataToNodeList_eq_map, treeNodeToTreeData_mk, isEmpty_map]
      rw [if_neg (by simp [hne]), List.map_map]
      have h1 : (genNodeAttrs c).inputValue = c := rfl
      rw [h1]
      congr 1
      calc kids.map (treeNodeToTreeData ∘ treeDataToNode)
          = kids.map id := List.map_congr_left fun x hx => ih x hx (hall x hx)
        _ = kids := List.map_id kids

/-- After `add` or `remove`, the children views are the (possibly new)
child elements, each re-wrapped by `setChildren` and re-wired by
`addListeners(this)`. -/
theorem children_after_rewire (a : NodeAttrs) (kids : List NodeEl) :
    (addListeners (createTreeNode (.mk a kids))).children =
      kids.map (fun c => addListeners (createTreeNode c)) := by
  simp [createTreeNode, addListeners, addListenersList_eq_map, createTreeNodeList_eq_map,
    List.map_map, Function.comp]

/-! ### The claims -/

/-- C1 (amended): for every TreeData `d` in which no branch has an empty
children list, building the view from `d` and serializing it back with
`getTreeData` returns `d` itself.  (The original claim, over all
well-formed TreeData, fails on branches with empty children lists: they
re-serialize as bare strings — see the counterexample.) -/
theorem c1_roundtrip_amended (d : TreeData) (h : TreeData.noEmptyBranch d = true) :
    treeNodeToTreeData (buildView d) = d := by
  rw [buildView, treeNodeToTreeData_createTreeNode]
  exact treeNodeToTreeData_treeDataToNode d h

/-- C1 counterexample: `["a", []]` is well-formed TreeData (the source's
`isTreeDataBranch` accepts a two-element array whose second entry is an
empty array), yet it does not survive the round trip: the built view has
zero children, so `getTreeData` returns the bare string `"a"`. -/
theorem c1_roundtrip_counterexample :
    treeNodeToTreeData (buildView (TreeData.branch "a" [])) ≠ TreeData.branch "a" [] := by
  decide

/-- C1 witness: the round trip at the concrete tree `["r", ["a"]]`. -/
theorem c1_roundtrip_witness :
    TreeData.noEmptyBranch (TreeData.branch "r" [TreeData.str "a"]) = true ∧
      treeNodeToTreeData (buildView (TreeData.branch "r" [TreeData.str "a"])) =
        TreeData.branch "r" [TreeData.str "a"] :=
  ⟨rfl, c1_roundtrip_amended (TreeData.branch "r" [TreeData.str "a"]) rfl⟩

/-- C2 (the code contradicts the claim): on a mounted tree whose root
has one child, `removeListeners` leaves both bullets' click handlers
assigned.  `addListeners` wires `[...content.children].slice(0,2)` — the
two bullets — but `removeListeners` clears
`[...content.children].slice(2)` — only the text input — so the bullet
click handlers survive; only `onkeydown` (and the never-assigned input
`onclick`) are cleared. -/
theorem c2_removeListeners_keeps_bullet_clicks :
    (removeListeners (addListeners (buildView
        (TreeData.branch "r" [TreeData.str "a"])))).attrs.expandedBulletClick = true ∧
      (removeListeners (addListeners (buildView
        (TreeData.branch "r" [TreeData.str "a"])))).attrs.collapsedBulletClick = true ∧
      (removeListeners (addListeners (buildView
        (TreeData.branch "r" [TreeData.str "a"])))).attrs.onKeydown = false :=
  ⟨rfl, rfl, rfl⟩

/-- C5: `remove(i)` with `i < 0` or `i >= childCount` returns without
touching anything: the node's whole element state (children, label,
classes, handlers) is unchanged, and no error is signalled (the
embedding is a total function). -/
theorem c5_remove_out_of_range (n : NodeEl) (i : Int)
    (h : i < 0 ∨ (n.children.length : Int) ≤ i) : n.remove i = n := by
  cases n with
  | mk a kids =>
      simp only [NodeEl.children_mk] at h
      simp only [NodeEl.remove]
      rw [if_pos h]

/-- C5 witness: `remove 5` on a root with one child. -/
theorem c5_remove_out_of_range_witness :
    (buildView (TreeData.branch "r" [TreeData.str "a"])).remove 5 =
      buildView (TreeData.branch "r" [TreeData.str "a"]) :=
  c5_remove_out_of_range (buildView (TreeData.branch "r" [TreeData.str "a"])) 5 (by decide)

/-- C10: `getTreeData` never returns a branch with an empty children
list, anywhere in the value: a childless node serializes to its bare
label, and a branch is only produced from a node with at least one
child, whose serialized children list is therefore non-empty. -/
theorem c10_no_empty_branch_in_range (n : NodeEl) :
    TreeData.noEmptyBranch (treeNodeToTreeData n) = true := by
  induction n using nodeElInductionOn with
  | h a kids ih =>
      cases kids with
      | nil => rfl
      | cons k ks =>
          rw [treeNodeToTreeData_mk, if_neg (by simp)]
          rw [TreeData.noEmptyBranch, Bool.and_eq_true]
          refine ⟨by simp, ?_⟩
          rw [noEmptyBranchList_iff]
          intro x hx
          obtain ⟨y, hy, rfl⟩ := List.mem_map.mp hx
          exact ih y hy

/-- C3: on a node whose current children are wired (re-running
`setChildren` and `addListeners` on each is the identity, as holds for
every node the library builds and wires), `add(d, i)` with
`0 <= i < childCount` puts the new child exactly at index `i`, shifting
the later children up; any other `i` — negative (the default `-1`
included) or `>= childCount` — appends the new child after the last. -/
theorem c3_add_position (n : NodeEl) (d : TreeData) (i : Int)
    (hw : ∀ c ∈ n.children, addListeners (createTreeNode c) = c) :
    (0 ≤ i → i < (n.children.length : Int) →
      (n.add d i).children = n.children.insertIdx i.toNat (newChildView d)) ∧
      ((i < 0 ∨ (n.children.length : Int) ≤ i) →
        (n.add d i).children = n.children ++ [newChildView d]) := by
  cases n with
  | mk a kids =>
      simp only [NodeEl.children_mk] at hw ⊢
      simp only [NodeEl.add]
      constructor
      · intro h0 h1
        rw [if_pos (⟨by omega, h1⟩ : -1 < i ∧ i < (kids.length : Int))]
        rw [children_after_rewire, map_insertIdx, map_fix _ kids hw]
        rfl
      · intro h
        rw [if_neg (by omega : ¬(-1 < i ∧ i < (kids.length : Int)))]
        rw [children_after_rewire, List.map_append, map_fix _ kids hw]
        rfl

/-- C3 witness: inserting at index 1 of a two-child root lands at index
1; adding with the default `-1` and with an index past the end appends. -/
theorem c3_add_position_witness :
    ((addListeners (buildView (TreeData.branch "r" [TreeData.str "a", TreeData.str "b"]))).add
        (TreeData.str "c") 1).children =
      (addListeners (buildView
          (TreeData.branch "r" [TreeData.str "a", TreeData.str "b"]))).children.insertIdx 1
        (newChildView (TreeData.str "c")) ∧
      ((addListeners (buildView (TreeData.branch "r" [TreeData.str "a", TreeData.str "b"]))).add
          (TreeData.str "c") (-1)).children =
        (addListeners (buildView
            (TreeData.branch "r" [TreeData.str "a", TreeData.str "b"]))).children ++
          [newChildView (TreeData.str "c")] :=
  ⟨(c3_add_position (addListeners (buildView
        (TreeData.branch "r" [TreeData.str "a", TreeData.str "b"])))
      (TreeData.str "c") 1 (by decide)).1 (by decide) (by decide),
    (c3_add_position (addListeners (buildView
        (TreeData.branch "r" [TreeData.str "a", TreeData.str "b"])))
      (TreeData.str "c") (-1) (by decide)).2 (by decide)⟩

/-- C4: on a node whose current children are wired, `remove(i)` with
`0 <= i < childCount` removes exactly the child at index `i`: the result
is the original list with entry `i` dropped, the others in their
original relative order (so the count drops by one). -/
theorem c4_remove_valid (n : NodeEl) (i : Int)
    (hw : ∀ c ∈ n.children, addListeners (createTreeNode c) = c)
    (h0 : 0 ≤ i) (h1 : i < (n.children.length : Int)) :
    (n.remove i).children = n.children.eraseIdx i.toNat := by
  cases n with
  | mk a kids =>
      simp only [NodeEl.children_mk] at hw h1 ⊢
      simp only [NodeEl.remove]
      rw [if_neg (by omega : ¬(i < 0 ∨ (kids.length : Int) ≤ i))]
      rw [children_after_rewire]
      exact map_fix _ _ fun x hx => hw x (mem_of_mem_eraseIdx kids i.toNat x hx)

/-- C4 witness: removing index 0 of a two-child root leaves exactly the
former second child. -/
theorem c4_remove_valid_witness :
    ((addListeners (buildView (TreeData.branch "r" [TreeData.str "a", TreeData.str "b"]))).remove
        0).children =
      (addListeners (buildView
          (TreeData.branch "r" [TreeData.str "a", TreeData.str "b"]))).children.eraseIdx 0 :=
  c4_remove_valid (addListeners (buildView
      (TreeData.branch "r" [TreeData.str "a", TreeData.str "b"])))
    0 (by decide) (by decide) (by decide)

/-- C6: `mount` on an already-mounted tree does nothing, so two mounts
in a row equal one; after mounting from an unmounted state whose host
did not hold the container, the container appears exactly once under the
host; and `unmount` when not mounted does nothing. -/
theorem c6_mount_unmount_idempotent (s : MountState) :
    (s.mounted = true → mountTree s = s) ∧
      mountTree (mountTree s) = mountTree s ∧
      (s.mounted = false → s.hostChildren.count treeContainerId = 0 →
        (mountTree (mountTree s)).hostChildren.count treeContainerId = 1) ∧
      (s.mounted = false → unmountTree s = s) := by
  obtain ⟨m, r, host⟩ := s
  refine ⟨?_, ?_, ?_, ?_⟩
  · intro h
    have h2 : m = true := h
    subst h2
    rfl
  · cases m <;> rfl
  · intro h hcount
    have h2 : m = false := h
    subst h2
    have hcount2 : host.count treeContainerId = 0 := hcount
    show (host ++ [treeContainerId]).count treeContainerId = 1
    rw [List.count_append, hcount2]
    rfl
  · intro h
    have h2 : m = false := h
    subst h2
    rfl

/-- C6 witness: mounting a fresh tree into an empty host. -/
theorem c6_mount_unmount_idempotent_witness :
    mountTree (mountTree ⟨false, buildView (TreeData.str "a"), []⟩) =
        mountTree ⟨false, buildView (TreeData.str "a"), []⟩ ∧
      (mountTree (mountTree
          ⟨false, buildView (TreeData.str "a"), []⟩)).hostChildren.count treeContainerId = 1 ∧
      unmountTree ⟨false, buildView (TreeData.str "a"), []⟩ =
        ⟨false, buildView (TreeData.str "a"), []⟩ :=
  ⟨(c6_mount_unmount_idempotent ⟨false, buildView (TreeData.str "a"), []⟩).2.1,
    (c6_mount_unmount_idempotent ⟨false, buildView (TreeData.str "a"), []⟩).2.2.1 rfl rfl,
    (c6_mount_unmount_idempotent ⟨false, buildView (TreeData.str "a"), []⟩).2.2.2 rfl⟩

theorem setTrue_classes (l0 : List String) (h1 : "expanded" ∉ l0) (h2 : "collapsed" ∉ l0) :
    classRemove (classAdd (l0 ++ ["expanded"]) "collapsed") "expanded" = l0 ++ ["collapsed"] := by
  rw [classAdd_of_not_mem (by simp [h2]), List.append_assoc, classRemove_append,
    classRemove_of_not_mem h1]
  rfl

theorem setFalse_classes (l0 : List String) (h1 : "expanded" ∉ l0) (h2 : "collapsed" ∉ l0) :
    classAdd (classRemove (l0 ++ ["collapsed"]) "collapsed") "expanded" = l0 ++ ["expanded"] := by
  rw [classRemove_self_append_singleton _ _ h2, classAdd_of_not_mem h1]

theorem contains_collapsed_of_expanded_shape (l0 : List String) (h2 : "collapsed" ∉ l0) :
    (l0 ++ ["expanded"]).contains "collapsed" = false := by
  rw [Bool.eq_false_iff]
  intro hc
  rw [contains_iff_mem] at hc
  simp [h2] at hc

theorem contains_collapsed_of_collapsed_shape (l0 : List String) :
    (l0 ++ ["collapsed"]).contains "collapsed" = true := by
  rw [contains_iff_mem]
  simp

theorem collapsed_fields (ec cc cbc ebc : List String) (v : String) (k1 k2 k3 k4 : Bool)
    (kids : List NodeEl) :
    (NodeEl.mk ⟨ec, cc, cbc, ebc, v, k1, k2, k3, k4⟩ kids).collapsed =
      cc.contains "collapsed" := rfl

theorem setCollapsed_fields_true (ec cc cbc ebc : List String) (v : String)
    (k1 k2 k3 k4 : Bool) (kids : List NodeEl) :
    (NodeEl.mk ⟨ec, cc, cbc, ebc, v, k1, k2, k3, k4⟩ kids).setCollapsed true =
      .mk ⟨classRemove (classAdd ec "collapsed") "expanded",
        classRemove (classAdd cc "collapsed") "expanded", cbc, ebc, v, k1, k2, k3, k4⟩
        kids := rfl

theorem setCollapsed_fields_false (ec cc cbc ebc : List String) (v : String)
    (k1 k2 k3 k4 : Bool) (kids : List NodeEl) :
    (NodeEl.mk ⟨ec, cc, cbc, ebc, v, k1, k2, k3, k4⟩ kids).setCollapsed false =
      .mk ⟨classAdd (classRemove ec "collapsed") "expanded",
        classAdd (classRemove cc "collapsed") "expanded", cbc, ebc, v, k1, k2, k3, k4⟩
        kids := rfl

/-- C7: on any node whose element and container class lists have the
shape the library maintains (state token last, no stray state tokens),
toggling `collapsed` twice restores the node's element state exactly:
class lists, the collapsed flag they encode, and the untouched children
subtree. -/
theorem c7_toggle_collapsed_twice (n : NodeEl)
    (h : (StateShape "expanded" "collapsed" n.attrs.elClasses ∧
            StateShape "expanded" "collapsed" n.attrs.childrenClasses) ∨
          (StateShape "collapsed" "expanded" n.attrs.elClasses ∧
            StateShape "collapsed" "expanded" n.attrs.childrenClasses)) :
    n.toggleCollapsed.toggleCollapsed = n := by
  cases n with
  | mk a kids =>
      simp only [NodeEl.attrs_mk] at h
      obtain ⟨ec, cc, cbc, ebc, v, k1, k2, k3, k4⟩ := a
      rcases h with ⟨⟨e0, he, he1, he2⟩, ⟨c0, hc, hc1, hc2⟩⟩ |
        ⟨⟨e0, he, he1, he2⟩, ⟨c0, hc, hc1, hc2⟩⟩
      · have hee : ec = e0 ++ ["expanded"] := he
        have hcc : cc = c0 ++ ["expanded"] := hc
        subst hee hcc
        have step1 :
            (NodeEl.mk ⟨e0 ++ ["expanded"], c0 ++ ["expanded"], cbc, ebc, v,
              k1, k2, k3, k4⟩ kids).toggleCollapsed =
              NodeEl.mk ⟨e0 ++ ["collapsed"], c0 ++ ["collapsed"], cbc, ebc, v,
                k1, k2, k3, k4⟩ kids := by
          rw [NodeEl.toggleCollapsed, collapsed_fields,
            contains_collapsed_of_expanded_shape c0 hc2,
            show (!false) = true from rfl, setCollapsed_fields_true,
            setTrue_classes e0 he1 he2, setTrue_classes c0 hc1 hc2]
        have step2 :
            (NodeEl.mk ⟨e0 ++ ["collapsed"], c0 ++ ["collapsed"], cbc, ebc, v,
              k1, k2, k3, k4⟩ kids).toggleCollapsed =
              NodeEl.mk ⟨e0 ++ ["expanded"], c0 ++ ["expanded"], cbc, ebc, v,
                k1, k2, k3, k4⟩ kids := by
          rw [NodeEl.toggleCollapsed, collapsed_fields,
            contains_collapsed_of_collapsed_shape c0,
            show (!true) = false from rfl, setCollapsed_fields_false,
            setFalse_classes e0 he1 he2, setFalse_classes c0 hc1 hc2]
        rw [step1, step2]
      · have hee : ec = e0 ++ ["collapsed"] := he
        have hcc : cc = c0 ++ ["collapsed"] := hc
        subst hee hcc
        have step1 :
            (NodeEl.mk ⟨e0 ++ ["collapsed"], c0 ++ ["collapsed"], cbc, ebc, v,
              k1, k2, k3, k4⟩ kids).toggleCollapsed =
              NodeEl.mk ⟨e0 ++ ["expanded"], c0 ++ ["expanded"], cbc, ebc, v,
                k1, k2, k3, k4⟩ kids := by
          rw [NodeEl.toggleCollapsed, collapsed_fields,
            contains_collapsed_of_collapsed_shape c0,
            show (!true) = false from rfl, setCollapsed_fields_false,
            setFalse_classes e0 he2 he1, setFalse_classes c0 hc2 hc1]
        have step2 :
            (NodeEl.mk ⟨e0 ++ ["expanded"], c0 ++ ["expanded"], cbc, ebc, v,
              k1, k2, k3, k4⟩ kids).toggleCollapsed =
              NodeEl.mk ⟨e0 ++ ["collapsed"], c0 ++ ["collapsed"], cbc, ebc, v,
                k1, k2, k3, k4⟩ kids := by
          rw [NodeEl.toggleCollapsed, collapsed_fields,
            contains_collapsed_of_expanded_shape c0 hc1,
            show (!false) = true from rfl, setCollapsed_fields_true,
            setTrue_classes e0 he2 he1, setTrue_classes c0 hc2 hc1]
        rw [step1, step2]

/-- C7 witness: toggling twice on the freshly built root of
`["r", ["a"]]`. -/
theorem c7_toggle_collapsed_twice_witness :
    (buildView (TreeData.branch "r" [TreeData.str "a"])).toggleCollapsed.toggleCollapsed =
      buildView (TreeData.branch "r" [TreeData.str "a"]) :=
  c7_toggle_collapsed_twice (buildView (TreeData.branch "r" [TreeData.str "a"]))
    (Or.inl ⟨⟨["tree_node"], rfl, by decide, by decide⟩,
      ⟨["children"], rfl, by decide, by decide⟩⟩)

theorem domKids_mk (i : Nat) (dom : List Nat) (kids : List VNode) :
    (VNode.mk i dom kids).domKids = dom := rfl

theorem viewKids_mk (i : Nat) (dom : List Nat) (kids : List VNode) :
    (VNode.mk i dom kids).viewKids = kids := rfl

/-- The append loop of `appendAll`, on distinct target elements: every
element not among the appended ones survives as a prefix, and the
appended elements end up in order, each moved as needed. -/
theorem foldl_domAppendEl :
    ∀ (ids : List Nat), ids.Nodup → ∀ L,
      ids.foldl domAppendEl L = L.filter (fun x => decide (x ∉ ids)) ++ ids := by
  intro ids
  induction ids with
  | nil => intro _ L; simp
  | cons x xs ih =>
      intro hnd L
      obtain ⟨hx, hxs⟩ := List.nodup_cons.mp hnd
      rw [List.foldl_cons, ih hxs (domAppendEl L x), domAppendEl,
        List.filter_append, List.filter_filter]
      have h1 : [x].filter (fun y => decide (y ∉ xs)) = [x] := by simp [hx]
      rw [h1]
      have h2 : L.filter (fun a => decide (a ∉ xs) && decide (a ≠ x)) =
          L.filter (fun a => decide (a ∉ x :: xs)) := by
        apply List.filter_congr
        intro a _
        by_cases h3 : a = x <;> by_cases h4 : a ∈ xs <;> simp [h3, h4]
      rw [h2, List.append_assoc, List.singleton_append]

/-- C8 (amended): `appendAll` repairs the container as follows.  When
the container holds fewer element children than the view list and every
element the removal loop leaves behind is one of the view children's
(distinct) elements, the container ends up holding exactly the view
children's elements in view order.  When the container holds at least as
many element children as the view list, the container is unchanged.  In
every case `appendAll` recurses into every view child.  (The original
claim — the removal loop clears *all* existing element children — fails:
iterating the live collection removes only every other one, so a foreign
surviving element is kept as a leftover; see the counterexample.) -/
theorem c8_appendAll_amended (i : Nat) (dom : List Nat) (kids : List VNode) :
    (dom.length < kids.length → (vnodeIds kids).Nodup →
      (∀ x ∈ liveRemoveAll dom, x ∈ vnodeIds kids) →
      (appendAll (VNode.mk i dom kids)).domKids = vnodeIds kids) ∧
      (kids.length ≤ dom.length → (appendAll (VNode.mk i dom kids)).domKids = dom) ∧
      (appendAll (VNode.mk i dom kids)).viewKids = kids.map appendAll := by
  refine ⟨?_, ?_, ?_⟩
  · intro hlt hnd hsub
    cases kids with
    | nil => simp at hlt
    | cons k ks =>
        rw [appendAll, if_neg (by simp), domKids_mk]
        rw [if_pos hlt, foldl_domAppendEl _ hnd]
        rw [List.filter_eq_nil_iff.mpr ?_, List.nil_append]
        intro x hxmem
        simp [hsub x hxmem]
  · intro hge
    cases kids with
    | nil => rw [appendAll, if_pos (by simp), domKids_mk]
    | cons k ks =>
        rw [appendAll, if_neg (by simp), domKids_mk,
          if_neg (by omega : ¬dom.length < (k :: ks).length)]
  · cases kids with
    | nil => rw [appendAll, if_pos (by simp), viewKids_mk]; rfl
    | cons k ks =>
        rw [appendAll, if_neg (by simp), viewKids_mk, appendAllList_eq_map]

/-- C8 counterexample: a container holding two foreign elements (ids 10
and 11) under a view with three children (ids 1, 2, 3).  The live-
collection loop removes only element 10, so the container ends as
`[11, 1, 2, 3]` where the claim demands `[1, 2, 3]`. -/
theorem c8_appendAll_counterexample :
    (appendAll (VNode.mk 0 [10, 11]
        [VNode.mk 1 [] [], VNode.mk 2 [] [], VNode.mk 3 [] []])).domKids ≠
      (appendAllSpec (VNode.mk 0 [10, 11]
        [VNode.mk 1 [] [], VNode.mk 2 [] [], VNode.mk 3 [] []])).domKids := by
  decide

/-- C8 witness: a container holding one of the two view children's
elements gets repaired to exactly the view list; a container holding at
least as many elements is untouched. -/
theorem c8_appendAll_amended_witness :
    (appendAll (VNode.mk 0 [5] [VNode.mk 5 [] [], VNode.mk 6 [] []])).domKids =
        vnodeIds [VNode.mk 5 [] [], VNode.mk 6 [] []] ∧
      (appendAll (VNode.mk 7 [8] [])).domKids = [8] :=
  ⟨(c8_appendAll_amended 0 [5] [VNode.mk 5 [] [], VNode.mk 6 [] []]).1
      (by decide) (by decide) (by decide),
    (c8_appendAll_amended 7 [8] []).2.1 (by decide)⟩

theorem contains_leaf_classAdd (l : List String) : (classAdd l "leaf").contains "leaf" = true := by
  rw [contains_iff_mem]
  exact mem_classAdd_self l "leaf"

theorem contains_leaf_classRemove (l : List String) :
    (classRemove l "leaf").contains "leaf" = false := by
  rw [Bool.eq_false_iff]
  intro hc
  rw [contains_iff_mem] at hc
  exact not_mem_classRemove_self l "leaf" hc

theorem leafMarked_setLeafClass (a : NodeAttrs) (b : Bool) (kids : List NodeEl) :
    leafMarked (.mk (setLeafClass a b) kids) = b := by
  cases b <;>
    simp [leafMarked, setLeafClass, mem_classAdd_self, not_mem_classRemove_self]

theorem leafMarked_addListeners (m : NodeEl) :
    leafMarked (addListeners m) = leafMarked m := by
  cases m with
  | mk a kids => simp [leafMarked, addListeners]

theorem children_isEmpty_addListeners (m : NodeEl) :
    (addListeners m).children.isEmpty = m.children.isEmpty := by
  cases m with
  | mk a kids => simp [addListeners, addListenersList_eq_map, isEmpty_map]

theorem leaf_iff_childless_createTreeNode (m : NodeEl) :
    leafMarked (createTreeNode m) = (createTreeNode m).children.isEmpty := by
  cases m with
  | mk a kids =>
      rw [createTreeNode, leafMarked_setLeafClass, NodeEl.children_mk]

/-- C9: whenever a node's children are recomputed — on construction
(`createTreeNode` runs `setChildren`) and by every `add` and every
in-range `remove` — the node carries the `leaf` class on its expanded
bullet exactly when it has zero children. -/
theorem c9_leaf_marking (n : NodeEl) (d : TreeData) (i : Int) :
    (leafMarked (createTreeNode n) = (createTreeNode n).children.isEmpty) ∧
      (leafMarked (n.add d i) = (n.add d i).children.isEmpty) ∧
      (0 ≤ i → i < (n.children.length : Int) →
        leafMarked (n.remove i) = (n.remove i).children.isEmpty) := by
  refine ⟨leaf_iff_childless_createTreeNode n, ?_, ?_⟩
  · cases n with
    | mk a kids =>
        simp only [NodeEl.add]
        rw [leafMarked_addListeners, children_isEmpty_addListeners,
          leaf_iff_childless_createTreeNode]
  · intro h0 h1
    cases n with
    | mk a kids =>
        simp only [NodeEl.children_mk] at h1
        simp only [NodeEl.remove]
        rw [if_neg (by omega : ¬(i < 0 ∨ (kids.length : Int) ≤ i))]
        rw [leafMarked_addListeners, children_isEmpty_addListeners,
          leaf_iff_childless_createTreeNode]

/-- C9 witness: removing the only child of `["r", ["a"]]` leaves a
childless, leaf-marked root; the `add` and construction cases at the
same tree. -/
theorem c9_leaf_marking_witness :
    (leafMarked ((buildView (TreeData.branch "r" [TreeData.str "a"])).remove 0) =
        ((buildView (TreeData.branch "r" [TreeData.str "a"])).remove 0).children.isEmpty) ∧
      (leafMarked ((buildView (TreeData.branch "r" [TreeData.str "a"])).add
          (TreeData.str "b") (-1)) =
        ((buildView (TreeData.branch "r" [TreeData.str "a"])).add
          (TreeData.str "b") (-1)).children.isEmpty) :=
  ⟨(c9_leaf_marking (buildView (TreeData.branch "r" [TreeData.str "a"]))
      (TreeData.str "b") 0).2.2 (by decide) (by decide),
    (c9_leaf_marking (buildView (TreeData.branch "r" [TreeData.str "a"]))
      (TreeData.str "b") (-1)).2.1⟩

end TreeEditor
